import Mathlib

/-!
# TodoApp: the task state engine of `src/App.js`

A shallow embedding of the React component `App` of `src/App.js`: its state
(`useState` hooks), its event handlers (`addTask`, `removeTask`, `editTask`,
`updateTask`, `toggleComplete`), the derived list `filteredTasks`, and the
persistence pair `loadTasks` / `saveTasks`.

JavaScript strings are sequences of UTF-16 code units; they are modelled as
lists of natural numbers (one number per code unit).
-/

namespace TodoApp

/-! ## Strings -/

/-- A JavaScript string: its sequence of UTF-16 code units. -/
abbrev JSString := List Nat

/-- The UTF-16 code units of one Unicode scalar value. -/
def utf16Char (c : Char) : List Nat :=
  if c.toNat < 0x10000 then [c.toNat]
  else [0xD800 + (c.toNat - 0x10000) / 0x400, 0xDC00 + (c.toNat - 0x10000) % 0x400]

/-- The JavaScript string written as the literal `s`. -/
def utf16 (s : String) : JSString :=
  s.toList.flatMap utf16Char

/-- ECMAScript `WhiteSpace` and `LineTerminator` code units: the ones removed
by `String.prototype.trim`. -/
def isJSWhiteSpace (u : Nat) : Bool :=
  u == 0x09 || u == 0x0A || u == 0x0B || u == 0x0C || u == 0x0D || u == 0x20
    || u == 0xA0 || u == 0x1680 || (0x2000 ≤ u && u ≤ 0x200A)
    || u == 0x2028 || u == 0x2029 || u == 0x202F || u == 0x205F
    || u == 0x3000 || u == 0xFEFF

/-- The method `String.prototype.trim`: white space removed from both ends. -/
def trim (s : JSString) : JSString :=
  ((s.dropWhile isJSWhiteSpace).reverse.dropWhile isJSWhiteSpace).reverse

/-! ## Data model -/

/-- A task record, `{ id, value, priority, completed }` (App.js line 42). -/
structure Task where
  id : JSString
  value : JSString
  priority : JSString
  completed : Bool
  deriving DecidableEq, Repr

/-- The component state: the five `useState` cells of `App` (lines 7-11). -/
structure State where
  task : JSString
  tasks : List Task
  editingTask : Option Task
  isModalVisible : Bool
  filter : JSString
  deriving DecidableEq, Repr

/-- The state of the first render (the `useState` initial values). -/
def State.initial : State :=
  { task := utf16 "", tasks := [], editingTask := none, isModalVisible := false,
    filter := utf16 "all" }

/-! ## Event handlers -/

/-- The handler `onChangeText = setTask` of the input field (line 97). -/
def setTask (text : JSString) (s : State) : State :=
  { s with task := text }

/-- The handler `addTask` (lines 40-45). `rnd` is the string `Math.random().toString()`
evaluated by this call. -/
def addTask (rnd : JSString) (s : State) : State :=
  if (trim s.task).length > 0 then
    { s with
      tasks := s.tasks ++
        [{ id := rnd, value := s.task, priority := utf16 "medium", completed := false }]
      task := utf16 "" }
  else s

/-- The handler `removeTask` (lines 47-49). -/
def removeTask (taskId : JSString) (s : State) : State :=
  { s with tasks := s.tasks.filter (fun task => task.id != taskId) }

/-- The handler `editTask` (lines 51-54): opens a draft holding the given task. -/
def editTask (task : Task) (s : State) : State :=
  { s with editingTask := some task, isModalVisible := true }

/-- The handler `onChangeText` of the modal input (line 130):
`setEditingTask({ ...editingTask, value: text })`. The modal input exists
only while a draft is open; with no draft the spread of `null` gives an object
that is not a task record, which the model reports as `none`. -/
def changeDraftText (text : JSString) (s : State) : Option State :=
  match s.editingTask with
  | some d => some { s with editingTask := some { d with value := text } }
  | none => none

/-- The handler `onValueChange` of the modal picker (lines 135-137):
`setEditingTask({ ...editingTask, priority: itemValue })`; `none` as for
`changeDraftText`. -/
def changeDraftPriority (itemValue : JSString) (s : State) : Option State :=
  match s.editingTask with
  | some d => some { s with editingTask := some { d with priority := itemValue } }
  | none => none

/-- The handler `updateTask` (lines 56-59). `none` is the `TypeError` raised by
`editingTask.id` when `editingTask` is `null` and the callback of `map` runs
(the collection is not empty). -/
def updateTask (s : State) : Option State :=
  match s.editingTask with
  | some d =>
    some { s with
      tasks := s.tasks.map (fun t => if t.id == d.id then d else t)
      isModalVisible := false }
  | none =>
    match s.tasks with
    | [] => some { s with tasks := [], isModalVisible := false }
    | _ :: _ => none

/-- The cancel button of the modal (line 146). -/
def cancelEdit (s : State) : State :=
  { s with isModalVisible := false }

/-- An edit carried through: `editTask` opens the draft of `task`, the modal
input sets its text, the picker sets its priority, `updateTask` commits. -/
def commitEdit (task : Task) (text priority : JSString) (s : State) : Option State :=
  (changeDraftText text (editTask task s)).bind fun s1 =>
    (changeDraftPriority priority s1).bind updateTask

/-- The handler `toggleComplete` (lines 61-63). -/
def toggleComplete (taskId : JSString) (s : State) : State :=
  { s with
    tasks := s.tasks.map
      (fun t => if t.id == taskId then { t with completed := !t.completed } else t) }

/-- The handler `onValueChange` of the filter picker (line 109). -/
def setFilter (itemValue : JSString) (s : State) : State :=
  { s with filter := itemValue }

/-- The derived list `filteredTasks` (lines 65-70). -/
def filteredTasks (s : State) : List Task :=
  s.tasks.filter (fun task =>
    if s.filter == utf16 "all" then true
    else if s.filter == utf16 "completed" then task.completed
    else if s.filter == utf16 "active" then !task.completed
    else task.priority == s.filter)


/-! ## The filter predicate of the specification -/

/-- The six values offered by the filter picker (lines 111-116). -/
inductive FilterSelector where
  | all | active | completed | high | medium | low
  deriving DecidableEq, Repr

/-- The `value` string of each `Picker.Item` of the filter picker. -/
def FilterSelector.toJS : FilterSelector → JSString
  | .all => utf16 "all"
  | .active => utf16 "active"
  | .completed => utf16 "completed"
  | .high => utf16 "high"
  | .medium => utf16 "medium"
  | .low => utf16 "low"

/-- The predicate `matches(task, selector)` as the specification words it
(section 4.3); compared with the callback of `filteredTasks`. -/
def matchesSpec (task : Task) : FilterSelector → Bool
  | .all => true
  | .active => !task.completed
  | .completed => task.completed
  | .high => task.priority == utf16 "high"
  | .medium => task.priority == utf16 "medium"
  | .low => task.priority == utf16 "low"

/-- The ids of a collection, in order. -/
def ids (tasks : List Task) : List JSString :=
  tasks.map Task.id

/-! ## Sequences of user actions -/

/-- One user action on the screen: typing in the input field, the Add
button, the X button of a row, the Edit button of a row, typing in the modal
input, the modal picker, the Update button, the Cancel button, a tap on the
text of a row, the filter picker. -/
inductive Op where
  | type (text : JSString)
  | add (rnd : JSString)
  | remove (taskId : JSString)
  | edit (task : Task)
  | draftText (text : JSString)
  | draftPriority (itemValue : JSString)
  | update
  | cancel
  | toggle (taskId : JSString)
  | pick (itemValue : JSString)
  deriving DecidableEq, Repr

/-- The handler run by an action. The controls of the modal (lines 127-148)
are on screen only while `isModalVisible` holds; `none` when the action is not
available or its handler raises. -/
def Op.apply (s : State) : Op → Option State
  | .type text => some (setTask text s)
  | .add rnd => some (addTask rnd s)
  | .remove taskId => some (removeTask taskId s)
  | .edit task => some (editTask task s)
  | .draftText text => if s.isModalVisible then changeDraftText text s else none
  | .draftPriority itemValue =>
    if s.isModalVisible then changeDraftPriority itemValue s else none
  | .update => if s.isModalVisible then updateTask s else none
  | .cancel => if s.isModalVisible then some (cancelEdit s) else none
  | .toggle taskId => some (toggleComplete taskId s)
  | .pick itemValue => some (setFilter itemValue s)

/-- The state after a sequence of actions, from `s`. -/
def runOps : State → List Op → Option State
  | s, [] => some s
  | s, op :: ops => (op.apply s).bind fun s' => runOps s' ops

/-- Whether every `addTask` of the run that creates a task draws from
`Math.random().toString()` a string that is the id of no task then in the
collection. -/
def freshIds : State → List Op → Bool
  | _, [] => true
  | s, op :: ops =>
    (match op with
      | .add rnd => !(decide ((trim s.task).length > 0) && (ids s.tasks).contains rnd)
      | _ => true) &&
    (match op.apply s with
      | some s' => freshIds s' ops
      | none => true)

/-! ## JSON text

`saveTasks` and `loadTasks` go through the ECMAScript built-ins
`JSON.stringify` and `JSON.parse`, which are not code of the repository. They
are modelled here after ECMA-262 (sections `JSON.stringify`, `QuoteJSONString`,
`JSON.parse`) and the JSON grammar of ECMA-404. -/

/-- A value built by `JSON.parse`. A number carries its literal as written
(its floating-point value is not computed); an object carries its properties in
the order in which they were created. -/
inductive JSValue where
  | null
  | bool (b : Bool)
  | number (literal : JSString)
  | string (s : JSString)
  | array (elements : List JSValue)
  | object (properties : List (JSString × JSValue))

/-- The lower-case hexadecimal digit of a number below sixteen. -/
def hexDigit (n : Nat) : Nat :=
  if n < 10 then 0x30 + n else 0x61 + (n - 10)

/-- The operation `UnicodeEscape`: the six code units of a `\uXXXX` escape. -/
def unicodeEscape (u : Nat) : List Nat :=
  [0x5C, 0x75, hexDigit (u / 4096 % 16), hexDigit (u / 256 % 16), hexDigit (u / 16 % 16),
    hexDigit (u % 16)]

/-- A leading surrogate code unit. -/
def isLeadSurrogate (u : Nat) : Bool := 0xD800 ≤ u && u ≤ 0xDBFF

/-- A trailing surrogate code unit. -/
def isTrailSurrogate (u : Nat) : Bool := 0xDC00 ≤ u && u ≤ 0xDFFF

/-- The escape of one code unit that is not half of a surrogate pair, in
`QuoteJSONString`: the short escapes of the table, `\uXXXX` for the other
control characters and for a lone surrogate, the code unit itself otherwise. -/
def quoteUnit (u : Nat) : List Nat :=
  if u == 0x08 then [0x5C, 0x62]
  else if u == 0x09 then [0x5C, 0x74]
  else if u == 0x0A then [0x5C, 0x6E]
  else if u == 0x0C then [0x5C, 0x66]
  else if u == 0x0D then [0x5C, 0x72]
  else if u == 0x22 then [0x5C, 0x22]
  else if u == 0x5C then [0x5C, 0x5C]
  else if u < 0x20 || isLeadSurrogate u || isTrailSurrogate u then unicodeEscape u
  else [u]

/-- The body of `QuoteJSONString`: the string is read code point by code
point, so a leading surrogate followed by a trailing one is copied as it is. -/
def quoteUnits : List Nat → List Nat
  | [] => []
  | [u] => quoteUnit u
  | u :: v :: rest =>
    if isLeadSurrogate u && isTrailSurrogate v then u :: v :: quoteUnits rest
    else quoteUnit u ++ quoteUnits (v :: rest)

/-- The operation `QuoteJSONString`. -/
def quoteJSONString (s : JSString) : JSString :=
  [0x22] ++ quoteUnits s ++ [0x22]

/-- The operation `SerializeJSONObject` on a task record, without gap: the four properties
in their order of creation, `id`, `value`, `priority`, `completed`. -/
def stringifyTask (t : Task) : JSString :=
  [0x7B] ++ quoteJSONString (utf16 "id") ++ [0x3A] ++ quoteJSONString t.id
    ++ [0x2C] ++ quoteJSONString (utf16 "value") ++ [0x3A] ++ quoteJSONString t.value
    ++ [0x2C] ++ quoteJSONString (utf16 "priority") ++ [0x3A] ++ quoteJSONString t.priority
    ++ [0x2C] ++ quoteJSONString (utf16 "completed") ++ [0x3A]
    ++ (if t.completed then utf16 "true" else utf16 "false")
    ++ [0x7D]

/-- The elements of `SerializeJSONArray`, separated by commas. -/
def stringifyElements : List Task → JSString
  | [] => []
  | [t] => stringifyTask t
  | t :: u :: rest => stringifyTask t ++ [0x2C] ++ stringifyElements (u :: rest)

/-- The call `JSON.stringify(tasks)` on a collection of task records. -/
def stringifyTasks (tasks : List Task) : JSString :=
  [0x5B] ++ stringifyElements tasks ++ [0x5D]

/-- The JavaScript value of a task record. -/
def taskToJS (t : Task) : JSValue :=
  .object [(utf16 "id", .string t.id), (utf16 "value", .string t.value),
    (utf16 "priority", .string t.priority), (utf16 "completed", .bool t.completed)]

/-- The JavaScript value of a collection: the array of its records. -/
def tasksToJS (tasks : List Task) : JSValue :=
  .array (tasks.map taskToJS)

/-- The task record a JavaScript value is, if it is one: an object with the
four properties, of type string, string, string and boolean. -/
def taskOfJS : JSValue → Option Task
  | .object [(k1, .string i), (k2, .string v), (k3, .string p), (k4, .bool c)] =>
    if k1 = utf16 "id" ∧ k2 = utf16 "value" ∧ k3 = utf16 "priority" ∧ k4 = utf16 "completed"
    then some { id := i, value := v, priority := p, completed := c }
    else none
  | _ => none

/-- The task records a list of JavaScript values is, if each is one. -/
def tasksOfElements : List JSValue → Option (List Task)
  | [] => some []
  | v :: vs =>
    match taskOfJS v, tasksOfElements vs with
    | some t, some ts => some (t :: ts)
    | _, _ => none

/-- The collection a JavaScript value is, if it is a valid one: an array of
task records. -/
def tasksOfJS : JSValue → Option (List Task)
  | .array elements => tasksOfElements elements
  | _ => none

/-! ### `JSON.parse` -/

/-- JSON white space. -/
def isJSONWhiteSpace (c : Nat) : Bool :=
  c == 0x20 || c == 0x09 || c == 0x0A || c == 0x0D

/-- The value of a hexadecimal digit. -/
def hexValue (c : Nat) : Option Nat :=
  if 0x30 ≤ c ∧ c ≤ 0x39 then some (c - 0x30)
  else if 0x61 ≤ c ∧ c ≤ 0x66 then some (c - 0x61 + 10)
  else if 0x41 ≤ c ∧ c ≤ 0x46 then some (c - 0x41 + 10)
  else none

/-- The code unit denoted by the character after a backslash. -/
def escapeValue (c : Nat) : Option Nat :=
  if c == 0x22 then some 0x22
  else if c == 0x5C then some 0x5C
  else if c == 0x2F then some 0x2F
  else if c == 0x62 then some 0x08
  else if c == 0x66 then some 0x0C
  else if c == 0x6E then some 0x0A
  else if c == 0x72 then some 0x0D
  else if c == 0x74 then some 0x09
  else none

/-- Where the reader is inside a number,
`-? (0 | [1-9][0-9]*) (. [0-9]+)? ([eE] [+-]? [0-9]+)?`. -/
inductive NumState where
  | minus | zero | int | dot | frac | e | esign | exp
  deriving DecidableEq, Repr

/-- Whether the number read so far is complete. -/
def NumState.accepting : NumState → Bool
  | .zero | .int | .frac | .exp => true
  | _ => false

/-- One more character of a number; `none` when it is not part of it. -/
def NumState.next (st : NumState) (c : Nat) : Option NumState :=
  let digit := 0x30 ≤ c && c ≤ 0x39
  match st with
  | .minus => if c == 0x30 then some .zero else if digit then some .int else none
  | .zero =>
    if c == 0x2E then some .dot else if c == 0x65 || c == 0x45 then some .e else none
  | .int =>
    if digit then some .int else if c == 0x2E then some .dot
    else if c == 0x65 || c == 0x45 then some .e else none
  | .dot => if digit then some .frac else none
  | .frac => if digit then some .frac else if c == 0x65 || c == 0x45 then some .e else none
  | .e => if digit then some .exp else if c == 0x2B || c == 0x2D then some .esign else none
  | .esign => if digit then some .exp else none
  | .exp => if digit then some .exp else none

/-- An array or object being read: the elements, or the properties and the
key awaiting its value, read so far. Elements are kept last first. -/
inductive Frame where
  | arr (elements : List JSValue)
  | obj (properties : List (JSString × JSValue))
  | member (properties : List (JSString × JSValue)) (key : JSString)

/-- What the reader expects next. -/
inductive Mode where
  | value
  | firstElement
  | firstKey
  | key
  | colon
  | str (isKey : Bool) (acc : List Nat)
  | esc (isKey : Bool) (acc : List Nat)
  | hex (isKey : Bool) (acc : List Nat) (count : Nat) (code : Nat)
  | num (st : NumState) (acc : List Nat)
  | lit (rest : List Nat) (v : JSValue)
  | after
  | done (v : JSValue)
  | error

/-- The state of the reader: what it expects and the open arrays and objects,
innermost first. -/
structure Reader where
  mode : Mode
  stack : List Frame

/-- The reader after a character that no JSON text has there. -/
def Reader.failed : Reader := ⟨.error, []⟩

/-- The operation `CreateDataProperty`: a key already present gets the new value and keeps
its place, a new key is added at the end. -/
def setProperty (k : JSString) (v : JSValue) :
    List (JSString × JSValue) → List (JSString × JSValue)
  | [] => [(k, v)]
  | (k', v') :: rest => if k' = k then (k, v) :: rest else (k', v') :: setProperty k v rest

/-- A value has been read: it is the result, or goes into the open array or
object. -/
def complete (v : JSValue) : List Frame → Reader
  | [] => ⟨.done v, []⟩
  | .arr elements :: stack => ⟨.after, .arr (v :: elements) :: stack⟩
  | .member properties k :: stack => ⟨.after, .obj (setProperty k v properties) :: stack⟩
  | .obj _ :: _ => Reader.failed

/-- A string has been read: a key of the open object, or a value. -/
def completeString (isKey : Bool) (s : JSString) (stack : List Frame) : Reader :=
  if isKey then
    match stack with
    | .obj properties :: stack => ⟨.colon, .member properties s :: stack⟩
    | _ => Reader.failed
  else complete (.string s) stack

/-- The first character of a value. -/
def startValue (stack : List Frame) (c : Nat) : Reader :=
  if c == 0x7B then ⟨.firstKey, .obj [] :: stack⟩
  else if c == 0x5B then ⟨.firstElement, .arr [] :: stack⟩
  else if c == 0x22 then ⟨.str false [], stack⟩
  else if c == 0x2D then ⟨.num .minus [c], stack⟩
  else if c == 0x30 then ⟨.num .zero [c], stack⟩
  else if 0x31 ≤ c && c ≤ 0x39 then ⟨.num .int [c], stack⟩
  else if c == 0x74 then ⟨.lit (utf16 "rue") (.bool true), stack⟩
  else if c == 0x66 then ⟨.lit (utf16 "alse") (.bool false), stack⟩
  else if c == 0x6E then ⟨.lit (utf16 "ull") .null, stack⟩
  else Reader.failed

/-- A character after a complete value: white space, a comma, or the end of
the open array or object. -/
def afterValue (r : Reader) (c : Nat) : Reader :=
  match r.mode, r.stack with
  | .done v, stack => if isJSONWhiteSpace c then ⟨.done v, stack⟩ else Reader.failed
  | .after, .arr elements :: stack =>
    if isJSONWhiteSpace c then r
    else if c == 0x2C then ⟨.value, .arr elements :: stack⟩
    else if c == 0x5D then complete (.array elements.reverse) stack
    else Reader.failed
  | .after, .obj properties :: stack =>
    if isJSONWhiteSpace c then r
    else if c == 0x2C then ⟨.key, .obj properties :: stack⟩
    else if c == 0x7D then complete (.object properties) stack
    else Reader.failed
  | _, _ => Reader.failed

/-- One character read. -/
def step (r : Reader) (c : Nat) : Reader :=
  match r.mode with
  | .value => if isJSONWhiteSpace c then r else startValue r.stack c
  | .firstElement =>
    if isJSONWhiteSpace c then r
    else if c == 0x5D then
      match r.stack with
      | .arr _ :: stack => complete (.array []) stack
      | _ => Reader.failed
    else startValue r.stack c
  | .firstKey =>
    if isJSONWhiteSpace c then r
    else if c == 0x7D then
      match r.stack with
      | .obj _ :: stack => complete (.object []) stack
      | _ => Reader.failed
    else if c == 0x22 then ⟨.str true [], r.stack⟩
    else Reader.failed
  | .key =>
    if isJSONWhiteSpace c then r
    else if c == 0x22 then ⟨.str true [], r.stack⟩
    else Reader.failed
  | .colon =>
    if isJSONWhiteSpace c then r
    else if c == 0x3A then ⟨.value, r.stack⟩
    else Reader.failed
  | .str isKey acc =>
    if c == 0x22 then completeString isKey acc.reverse r.stack
    else if c == 0x5C then ⟨.esc isKey acc, r.stack⟩
    else if c < 0x20 then Reader.failed
    else ⟨.str isKey (c :: acc), r.stack⟩
  | .esc isKey acc =>
    if c == 0x75 then ⟨.hex isKey acc 0 0, r.stack⟩
    else
      match escapeValue c with
      | some u => ⟨.str isKey (u :: acc), r.stack⟩
      | none => Reader.failed
  | .hex isKey acc count code =>
    match hexValue c with
    | some d =>
      if count == 3 then ⟨.str isKey ((code * 16 + d) :: acc), r.stack⟩
      else ⟨.hex isKey acc (count + 1) (code * 16 + d), r.stack⟩
    | none => Reader.failed
  | .num st acc =>
    match st.next c with
    | some st' => ⟨.num st' (c :: acc), r.stack⟩
    | none =>
      if st.accepting then afterValue (complete (.number acc.reverse) r.stack) c
      else Reader.failed
  | .lit rest v =>
    match rest with
    | [] => Reader.failed
    | [x] => if c == x then complete v r.stack else Reader.failed
    | x :: y :: more => if c == x then ⟨.lit (y :: more) v, r.stack⟩ else Reader.failed
  | .after => afterValue r c
  | .done _ => afterValue r c
  | .error => Reader.failed

/-- The value read when the text ends; `none` when the text is not a JSON
text. -/
def finish (r : Reader) : Option JSValue :=
  match r.mode, r.stack with
  | .done v, _ => some v
  | .num st acc, [] => if st.accepting then some (.number acc.reverse) else none
  | _, _ => none

/-- The call `JSON.parse(text)`: the value of a JSON text, `none` for the error
raised when `text` is not one. -/
def jsonParse (text : JSString) : Option JSValue :=
  finish (text.foldl step ⟨.value, []⟩)

/-! ## Persistence -/

/-- The outcome of `AsyncStorage.getItem('tasks')`: the promise is rejected,
or resolves to `null` (nothing stored) or to the stored string. -/
inductive ReadResult where
  | rejected
  | absent
  | stored (text : JSString)

/-- An exception raised inside `loadTasks`. -/
inductive JSError where
  | storage
  | parseError

/-- The `try` block of `loadTasks` (lines 23-26): the new content of the
cell `tasks`, or the exception raised. `tasks` is the content before. -/
def loadTasksTry (read : ReadResult) (tasks : JSValue) : Except JSError JSValue :=
  match read with
  | .rejected => .error .storage
  | .absent => .ok tasks
  | .stored storedTasks =>
    match jsonParse storedTasks with
    | some v => .ok v
    | none => .error .parseError

/-- The function `loadTasks` (lines 21-30): the `catch` clause logs the exception and
leaves the cell `tasks` as it was. -/
def loadTasks (read : ReadResult) (tasks : JSValue) : Except JSError JSValue :=
  match loadTasksTry read tasks with
  | .ok v => .ok v
  | .error _ => .ok tasks

/-- The function `saveTasks` (lines 32-38): the string handed to
`AsyncStorage.setItem('tasks', _)`. -/
def saveTasks (tasks : List Task) : JSString :=
  stringifyTasks tasks

/-! ## Lemmas on `trim` -/

theorem trim_eq_nil_iff (s : JSString) :
    trim s = [] ↔ ∀ u ∈ s, isJSWhiteSpace u = true := by
  unfold trim
  rw [List.reverse_eq_nil_iff, List.dropWhile_eq_nil_iff]
  constructor
  · intro h u hu
    by_cases hd : u ∈ s.dropWhile isJSWhiteSpace
    · exact h u (List.mem_reverse.mpr hd)
    · have := List.takeWhile_append_dropWhile isJSWhiteSpace s
      rw [← this] at hu
      rcases List.mem_append.mp hu with h1 | h1
      · exact List.mem_takeWhile_imp h1
      · exact absurd h1 hd
  · intro h u hu
    exact h u ((List.dropWhile_sublist _).subset (List.mem_reverse.mp hu))

/-! ## Edit -/

theorem commitEdit_eq (task : Task) (text priority : JSString) (s : State) :
    commitEdit task text priority s =
      some { s with
        tasks := s.tasks.map (fun t =>
          if t.id == task.id then { task with value := text, priority := priority } else t)
        editingTask := some { task with value := text, priority := priority }
        isModalVisible := false } := by
  simp [commitEdit, editTask, changeDraftText, changeDraftPriority, updateTask]

/-- C1. For every collection and every task of it (the one at position `i`),
the edit of that task to `text` and `priority` is committed without error; in
the resulting collection the task at that position has the text and the
priority of the edit and the id and the completed value it had before the
commit, every task bearing that id has that text and priority, and the
collection keeps its length. -/
theorem commitEdit_sets_text_and_priority (s : State) (i : Nat) (hi : i < s.tasks.length)
    (text priority : JSString) :
    ∃ s', commitEdit (s.tasks.get ⟨i, hi⟩) text priority s = some s' ∧
      s'.tasks.length = s.tasks.length ∧
      s'.tasks[i]? = some
        { id := (s.tasks.get ⟨i, hi⟩).id, value := text, priority := priority,
          completed := (s.tasks.get ⟨i, hi⟩).completed } ∧
      ∀ u ∈ s'.tasks, u.id = (s.tasks.get ⟨i, hi⟩).id →
        u.value = text ∧ u.priority = priority := by
  refine ⟨_, commitEdit_eq _ _ _ _, ?_, ?_, ?_⟩
  · simp
  · simp [List.getElem?_map, List.getElem?_eq_getElem hi]
  · intro u hu hid
    simp only [List.mem_map] at hu
    obtain ⟨t, _, rfl⟩ := hu
    by_cases h : t.id = (s.tasks.get ⟨i, hi⟩).id
    · simp [h]
    · have : ¬ (t.id = s.tasks[i].id) := h
      simp [this] at hid

theorem commitEdit_sets_text_and_priority_witness :
    ∃ s', commitEdit
        ([⟨utf16 "0.1", utf16 "a", utf16 "medium", true⟩].get ⟨0, by decide⟩)
        (utf16 "New text") (utf16 "low")
        { State.initial with tasks := [⟨utf16 "0.1", utf16 "a", utf16 "medium", true⟩] }
        = some s' ∧
      s'.tasks.length = 1 ∧
      s'.tasks[0]? = some ⟨utf16 "0.1", utf16 "New text", utf16 "low", true⟩ ∧
      ∀ u ∈ s'.tasks, u.id = utf16 "0.1" → u.value = utf16 "New text" ∧ u.priority = utf16 "low" :=
  commitEdit_sets_text_and_priority
    { State.initial with tasks := [⟨utf16 "0.1", utf16 "a", utf16 "medium", true⟩] }
    0 (by decide) (utf16 "New text") (utf16 "low")

/-! ## Add -/

/-- C2. When the trimmed input text is not empty, `addTask` yields the
collection followed by exactly one new task, which has the text as typed,
priority "medium" and completed false; and from the first state, adding
"Buy milk" gives the one-task list with that text, "medium", not completed. -/
theorem addTask_appends_new_task (s : State) (rnd : JSString) :
    ((trim s.task).length > 0 →
      (addTask rnd s).tasks = s.tasks ++
        [{ id := rnd, value := s.task, priority := utf16 "medium", completed := false }]) ∧
    (addTask rnd (setTask (utf16 "Buy milk") State.initial)).tasks =
      [{ id := rnd, value := utf16 "Buy milk", priority := utf16 "medium",
         completed := false }] := by
  constructor
  · intro h
    simp [addTask, h]
  · have h : (trim (utf16 "Buy milk")).length > 0 := by decide
    simp [addTask, setTask, State.initial, h]

theorem addTask_appends_new_task_witness :
    ((trim (setTask (utf16 " x ") State.initial).task).length > 0 ∧
      (addTask (utf16 "0.25") (setTask (utf16 " x ") State.initial)).tasks =
        [] ++ [{ id := utf16 "0.25", value := utf16 " x ", priority := utf16 "medium",
                 completed := false }]) ∧
    (addTask (utf16 "0.25") (setTask (utf16 "Buy milk") State.initial)).tasks =
      [{ id := utf16 "0.25", value := utf16 "Buy milk", priority := utf16 "medium",
         completed := false }] :=
  ⟨⟨by decide,
    (addTask_appends_new_task (setTask (utf16 " x ") State.initial) (utf16 "0.25")).1
      (by decide)⟩,
   (addTask_appends_new_task (setTask (utf16 " x ") State.initial) (utf16 "0.25")).2⟩

/-- C3. When the input text is empty or made of white space only (empty after
trimming), `addTask` leaves the whole state, hence the collection and its
length, as it was; and whatever the input, `addTask` either leaves the
collection as it was or appends one task whose text is not empty after
trimming. -/
theorem addTask_blank_is_noop (s : State) (rnd : JSString) :
    ((∀ u ∈ s.task, isJSWhiteSpace u = true) → trim s.task = []) ∧
    (trim s.task = [] →
      addTask rnd s = s ∧ (addTask rnd s).tasks = s.tasks ∧
      (addTask rnd s).tasks.length = s.tasks.length) ∧
    ((addTask rnd s).tasks = s.tasks ∨
      ∃ t, (addTask rnd s).tasks = s.tasks ++ [t] ∧ trim t.value ≠ []) := by
  refine ⟨(trim_eq_nil_iff _).mpr, ?_, ?_⟩
  · intro h
    have : addTask rnd s = s := by simp [addTask, h]
    simp [this]
  · by_cases h : (trim s.task).length > 0
    · right
      refine ⟨_, by simp [addTask, h]; rfl, ?_⟩
      intro h0
      simp [h0] at h
    · left
      simp [addTask, h]

theorem addTask_blank_is_noop_witness :
    (∀ u ∈ utf16 "   ", isJSWhiteSpace u = true) ∧ trim (utf16 "   ") = [] ∧
    addTask (utf16 "0.5") (setTask (utf16 "   ") State.initial)
      = setTask (utf16 "   ") State.initial ∧
    addTask (utf16 "0.5") (setTask (utf16 "") State.initial)
      = setTask (utf16 "") State.initial :=
  ⟨by decide, by decide,
   ((addTask_blank_is_noop (setTask (utf16 "   ") State.initial) (utf16 "0.5")).2.1
      (by decide)).1,
   ((addTask_blank_is_noop (setTask (utf16 "") State.initial) (utf16 "0.5")).2.1
      (by decide)).1⟩

/-! ## Remove -/

theorem filter_id_ne_eq_self (taskId : JSString) (l : List Task)
    (h : ∀ t ∈ l, t.id ≠ taskId) : l.filter (fun task => task.id != taskId) = l := by
  rw [List.filter_eq_self]
  intro t ht
  simpa using h t ht

/-- C4. `removeTask` applied twice with an id gives the state that one
application gives; and when no task of the collection has the id, one and two
applications both leave the state as it was. -/
theorem removeTask_idempotent (s : State) (taskId : JSString) :
    removeTask taskId (removeTask taskId s) = removeTask taskId s ∧
    ((∀ t ∈ s.tasks, t.id ≠ taskId) →
      removeTask taskId s = s ∧ removeTask taskId (removeTask taskId s) = s) := by
  have h1 : removeTask taskId (removeTask taskId s) = removeTask taskId s := by
    simp [removeTask, List.filter_filter]
  refine ⟨h1, fun h => ?_⟩
  have h2 : removeTask taskId s = s := by
    simp only [removeTask, filter_id_ne_eq_self taskId s.tasks h]
  exact ⟨h2, by rw [h1, h2]⟩

theorem removeTask_idempotent_witness :
    (∀ t ∈ (addTask (utf16 "0.5") (setTask (utf16 "a") State.initial)).tasks,
        t.id ≠ utf16 "0.7") ∧
    removeTask (utf16 "0.7") (addTask (utf16 "0.5") (setTask (utf16 "a") State.initial))
      = addTask (utf16 "0.5") (setTask (utf16 "a") State.initial) ∧
    removeTask (utf16 "0.7")
        (removeTask (utf16 "0.7") (addTask (utf16 "0.5") (setTask (utf16 "a") State.initial)))
      = addTask (utf16 "0.5") (setTask (utf16 "a") State.initial) :=
  ⟨by decide,
   (removeTask_idempotent (addTask (utf16 "0.5") (setTask (utf16 "a") State.initial))
      (utf16 "0.7")).2 (by decide)⟩

/-! ## Toggle -/

/-- C5. Two successive `toggleComplete` with the same id give back the state
they started from; one `toggleComplete` keeps the length and the order of the
collection and every id, text and priority, negates the completed flag of the
tasks with the id, and keeps the completed flag of the others. -/
theorem toggleComplete_self_inverse (s : State) (taskId : JSString) :
    toggleComplete taskId (toggleComplete taskId s) = s ∧
    (toggleComplete taskId s).tasks.length = s.tasks.length ∧
    (∀ (i : Nat) (t : Task), s.tasks[i]? = some t →
      ∃ t', (toggleComplete taskId s).tasks[i]? = some t' ∧
        t'.id = t.id ∧ t'.value = t.value ∧ t'.priority = t.priority ∧
        t'.completed = (if t.id = taskId then !t.completed else t.completed)) ∧
    (toggleComplete taskId s).task = s.task ∧
    (toggleComplete taskId s).editingTask = s.editingTask ∧
    (toggleComplete taskId s).isModalVisible = s.isModalVisible ∧
    (toggleComplete taskId s).filter = s.filter := by
  refine ⟨?_, by simp [toggleComplete], ?_, rfl, rfl, rfl, rfl⟩
  · have : ∀ l : List Task,
        (l.map (fun t => if t.id == taskId then { t with completed := !t.completed } else t)).map
          (fun t => if t.id == taskId then { t with completed := !t.completed } else t) = l := by
      intro l
      induction l with
      | nil => rfl
      | cons t l ih =>
        rw [List.map_cons, List.map_cons, ih]
        congr 1
        cases t
        split <;> simp_all
    cases s
    simp only [toggleComplete, this]
  · intro i t hit
    refine ⟨if t.id == taskId then { t with completed := !t.completed } else t, ?_, ?_⟩
    · simp only [toggleComplete, List.getElem?_map, hit, Option.map_some']
    · by_cases h : t.id = taskId <;> simp [h]

theorem toggleComplete_self_inverse_witness :
    ∃ t', (toggleComplete (utf16 "0.5")
        (addTask (utf16 "0.5") (setTask (utf16 "a") State.initial))).tasks[0]? = some t' ∧
      t'.id = utf16 "0.5" ∧ t'.value = utf16 "a" ∧ t'.priority = utf16 "medium" ∧
      t'.completed = true :=
  (toggleComplete_self_inverse (addTask (utf16 "0.5") (setTask (utf16 "a") State.initial))
    (utf16 "0.5")).2.2.1 0 ⟨utf16 "0.5", utf16 "a", utf16 "medium", false⟩ (by decide)


/-! ## Filter -/

/-- C6. For each of the six selectors, `filteredTasks` is the list of the
tasks of the collection that satisfy the predicate `matches` of the
specification, in their original order (a subsequence of the collection). -/
theorem filteredTasks_eq_filter_matchesSpec (s : State) (sel : FilterSelector)
    (h : s.filter = sel.toJS) :
    filteredTasks s = s.tasks.filter (fun task => matchesSpec task sel) ∧
    (filteredTasks s).Sublist s.tasks := by
  refine ⟨?_, List.filter_sublist _⟩
  unfold filteredTasks
  rw [h]
  apply List.filter_congr
  intro t _
  cases sel <;> simp [FilterSelector.toJS, matchesSpec, show utf16 "all" = [97, 108, 108] by decide,
    show utf16 "completed" = [99, 111, 109, 112, 108, 101, 116, 101, 100] by decide,
    show utf16 "active" = [97, 99, 116, 105, 118, 101] by decide,
    show utf16 "high" = [104, 105, 103, 104] by decide,
    show utf16 "medium" = [109, 101, 100, 105, 117, 109] by decide,
    show utf16 "low" = [108, 111, 119] by decide]

theorem filteredTasks_eq_filter_matchesSpec_witness :
    filteredTasks
        (setFilter (utf16 "active")
          (toggleComplete (utf16 "0.5")
            (addTask (utf16 "0.5") (setTask (utf16 "a") State.initial))))
      = [] ∧
    filteredTasks
        (setFilter (utf16 "completed")
          (toggleComplete (utf16 "0.5")
            (addTask (utf16 "0.5") (setTask (utf16 "a") State.initial))))
      = [⟨utf16 "0.5", utf16 "a", utf16 "medium", true⟩] :=
  ⟨((filteredTasks_eq_filter_matchesSpec
      (setFilter (utf16 "active")
        (toggleComplete (utf16 "0.5")
          (addTask (utf16 "0.5") (setTask (utf16 "a") State.initial))))
      FilterSelector.active (by decide)).1).trans (by decide),
   ((filteredTasks_eq_filter_matchesSpec
      (setFilter (utf16 "completed")
        (toggleComplete (utf16 "0.5")
          (addTask (utf16 "0.5") (setTask (utf16 "a") State.initial))))
      FilterSelector.completed (by decide)).1).trans (by decide)⟩

/-! ## Order of the collection -/

theorem ids_map_keep_id (f : Task → Task) (hf : ∀ t, (f t).id = t.id) (l : List Task) :
    ids (l.map f) = ids l := by
  simp [ids, List.map_map, Function.comp_def, hf]

theorem ids_updateTask (s s' : State) (h : updateTask s = some s') :
    ids s'.tasks = ids s.tasks := by
  unfold updateTask at h
  cases hd : s.editingTask with
  | some d =>
    simp only [hd, Option.some.injEq] at h
    subst h
    apply ids_map_keep_id
    intro t
    by_cases ht : t.id = d.id <;> simp [ht]
  | none =>
    simp only [hd] at h
    cases hl : s.tasks with
    | nil =>
      simp only [hl, Option.some.injEq] at h
      subst h
      rfl
    | cons a l => simp [hl] at h

theorem ids_toggleComplete (taskId : JSString) (s : State) :
    ids (toggleComplete taskId s).tasks = ids s.tasks := by
  apply ids_map_keep_id
  intro t
  by_cases ht : t.id = taskId <;> simp [ht]

theorem ids_removeTask (taskId : JSString) (s : State) :
    ids (removeTask taskId s).tasks = (ids s.tasks).filter (fun i => i != taskId) := by
  simp [ids, removeTask, List.filter_map, Function.comp_def]

/-- C9. Every mutation keeps the order of the collection: `updateTask`, which
commits whenever a draft is open, and `toggleComplete` leave the sequence of
ids as it was; an `addTask` with a text not empty after trimming appends the
new id at the end; `removeTask` deletes from the sequence of ids the entries
equal to the id, and the tasks it keeps are unchanged and in the same relative
order (a subsequence of the collection holding every task with another id). -/
theorem mutations_preserve_order (s : State) (taskId rnd : JSString) :
    (∀ s', updateTask s = some s' → ids s'.tasks = ids s.tasks) ∧
    (s.editingTask ≠ none → ∃ s', updateTask s = some s' ∧ ids s'.tasks = ids s.tasks) ∧
    ids (toggleComplete taskId s).tasks = ids s.tasks ∧
    ((trim s.task).length > 0 → ids (addTask rnd s).tasks = ids s.tasks ++ [rnd]) ∧
    ids (removeTask taskId s).tasks = (ids s.tasks).filter (fun i => i != taskId) ∧
    (removeTask taskId s).tasks.Sublist s.tasks ∧
    (∀ t ∈ s.tasks, t.id ≠ taskId → t ∈ (removeTask taskId s).tasks) := by
  refine ⟨fun s' h => ids_updateTask s s' h, ?_, ids_toggleComplete taskId s, ?_,
    ids_removeTask taskId s, List.filter_sublist _, ?_⟩
  · intro hd
    cases hs : updateTask s with
    | some s' => exact ⟨s', rfl, ids_updateTask s s' hs⟩
    | none =>
      cases he : s.editingTask with
      | none => exact absurd he hd
      | some d => simp [updateTask, he] at hs
  · intro h
    simp [addTask, h, ids]
  · intro t ht hne
    simp [removeTask, ht, hne]

theorem mutations_preserve_order_witness :
    ∃ s', updateTask
        (editTask ⟨utf16 "0.5", utf16 "a", utf16 "medium", false⟩
          (addTask (utf16 "0.5") (setTask (utf16 "a") State.initial))) = some s' ∧
      ids s'.tasks = [utf16 "0.5"] :=
  (mutations_preserve_order
    (editTask ⟨utf16 "0.5", utf16 "a", utf16 "medium", false⟩
      (addTask (utf16 "0.5") (setTask (utf16 "a") State.initial)))
    (utf16 "0.5") (utf16 "0.7")).2.1 (by decide)

/-! ## Uniqueness of ids -/

theorem nodup_ids_apply (s s' : State) (op : Op) (h : op.apply s = some s')
    (hf : ∀ rnd, op = .add rnd → (trim s.task).length > 0 → rnd ∉ ids s.tasks)
    (hs : (ids s.tasks).Nodup) : (ids s'.tasks).Nodup := by
  cases op with
  | type text => simp only [Op.apply, Option.some.injEq] at h; subst h; exact hs
  | add rnd =>
    simp only [Op.apply, Option.some.injEq] at h
    subst h
    by_cases ht : (trim s.task).length > 0
    · have hfresh := hf rnd rfl ht
      have : ids (addTask rnd s).tasks = ids s.tasks ++ [rnd] := by simp [addTask, ht, ids]
      rw [this]
      exact List.Nodup.append hs (List.nodup_singleton _) (by simpa using hfresh)
    · simpa [addTask, ht] using hs
  | remove taskId =>
    simp only [Op.apply, Option.some.injEq] at h
    subst h
    rw [ids_removeTask]
    exact hs.sublist (List.filter_sublist _)
  | edit task => simp only [Op.apply, Option.some.injEq] at h; subst h; exact hs
  | draftText text =>
    simp only [Op.apply, changeDraftText] at h
    split at h
    · split at h
      · simp only [Option.some.injEq] at h; subst h; exact hs
      · exact absurd h (by simp)
    · exact absurd h (by simp)
  | draftPriority itemValue =>
    simp only [Op.apply, changeDraftPriority] at h
    split at h
    · split at h
      · simp only [Option.some.injEq] at h; subst h; exact hs
      · exact absurd h (by simp)
    · exact absurd h (by simp)
  | update =>
    simp only [Op.apply] at h
    split at h
    · rw [ids_updateTask s s' h]; exact hs
    · exact absurd h (by simp)
  | cancel =>
    simp only [Op.apply] at h
    split at h
    · simp only [Option.some.injEq] at h; subst h; exact hs
    · exact absurd h (by simp)
  | toggle taskId =>
    simp only [Op.apply, Option.some.injEq] at h
    subst h
    rw [ids_toggleComplete]; exact hs
  | pick itemValue => simp only [Op.apply, Option.some.injEq] at h; subst h; exact hs

theorem nodup_ids_runOps (ops : List Op) :
    ∀ s s', runOps s ops = some s' → freshIds s ops = true →
      (ids s.tasks).Nodup → (ids s'.tasks).Nodup := by
  induction ops with
  | nil =>
    intro s s' h _ hs
    simp only [runOps, Option.some.injEq] at h
    subst h; exact hs
  | cons op ops ih =>
    intro s s' h hf hs
    simp only [runOps] at h
    cases ha : op.apply s with
    | none => simp [ha] at h
    | some s1 =>
      simp only [ha, Option.some_bind] at h
      simp only [freshIds, ha, Bool.and_eq_true] at hf
      refine ih s1 s' h hf.2 (nodup_ids_apply s s1 op ha ?_ hs)
      intro rnd hop ht hmem
      subst hop
      have := hf.1
      simp [ht, hmem] at this

/-- C7, as the code does it. In every collection reached from the empty one
by a sequence of user actions in which each `addTask` that creates a task
draws an id borne by no task then in the collection, no two tasks have the
same id. -/
theorem ids_distinct_when_fresh (ops : List Op) (s : State)
    (h : runOps State.initial ops = some s) (hf : freshIds State.initial ops = true) :
    (ids s.tasks).Nodup :=
  nodup_ids_runOps ops State.initial s h hf (by simp [State.initial, ids])

theorem ids_distinct_when_fresh_witness :
    (ids ({ State.initial with
        tasks := [⟨utf16 "0.7", utf16 "b", utf16 "medium", false⟩] } : State).tasks).Nodup :=
  ids_distinct_when_fresh
    [.type (utf16 "a"), .add (utf16 "0.5"), .type (utf16 "b"), .add (utf16 "0.7"),
      .remove (utf16 "0.5")]
    { State.initial with tasks := [⟨utf16 "0.7", utf16 "b", utf16 "medium", false⟩] }
    (by decide) (by decide)

/-- C7 as stated fails: two `addTask` whose `Math.random().toString()` give
the same string leave two tasks with the same id. -/
theorem ids_not_always_distinct :
    runOps State.initial
        [.type (utf16 "a"), .add (utf16 "0.5"), .type (utf16 "b"), .add (utf16 "0.5")]
      = some { State.initial with
          tasks := [⟨utf16 "0.5", utf16 "a", utf16 "medium", false⟩,
                    ⟨utf16 "0.5", utf16 "b", utf16 "medium", false⟩] } ∧
    ¬ (ids [⟨utf16 "0.5", utf16 "a", utf16 "medium", false⟩,
            ⟨utf16 "0.5", utf16 "b", utf16 "medium", false⟩]).Nodup := by
  constructor
  · decide
  · decide


/-! ## The draft behind the modal -/

theorem draft_open_apply (s s' : State) (op : Op) (h : op.apply s = some s')
    (hs : s.isModalVisible = true → s.editingTask ≠ none) :
    s'.isModalVisible = true → s'.editingTask ≠ none := by
  cases op with
  | type text => simp only [Op.apply, Option.some.injEq] at h; subst h; exact hs
  | add rnd =>
    simp only [Op.apply, Option.some.injEq] at h
    subst h
    unfold addTask
    split
    · exact hs
    · exact hs
  | remove taskId => simp only [Op.apply, Option.some.injEq] at h; subst h; exact hs
  | edit task =>
    simp only [Op.apply, Option.some.injEq] at h
    subst h
    intro _
    simp [editTask]
  | draftText text =>
    simp only [Op.apply, changeDraftText] at h
    split at h
    · split at h
      · simp only [Option.some.injEq] at h; subst h; intro _; simp
      · exact absurd h (by simp)
    · exact absurd h (by simp)
  | draftPriority itemValue =>
    simp only [Op.apply, changeDraftPriority] at h
    split at h
    · split at h
      · simp only [Option.some.injEq] at h; subst h; intro _; simp
      · exact absurd h (by simp)
    · exact absurd h (by simp)
  | update =>
    simp only [Op.apply, updateTask] at h
    split at h
    · split at h
      · simp only [Option.some.injEq] at h; subst h; intro hv; simp at hv
      · split at h
        · simp only [Option.some.injEq] at h; subst h; intro hv; simp at hv
        · exact absurd h (by simp)
    · exact absurd h (by simp)
  | cancel =>
    simp only [Op.apply] at h
    split at h
    · simp only [Option.some.injEq] at h; subst h; intro hv; simp [cancelEdit] at hv
    · exact absurd h (by simp)
  | toggle taskId => simp only [Op.apply, Option.some.injEq] at h; subst h; exact hs
  | pick itemValue => simp only [Op.apply, Option.some.injEq] at h; subst h; exact hs

theorem draft_open_runOps (ops : List Op) :
    ∀ s s', runOps s ops = some s' → (s.isModalVisible = true → s.editingTask ≠ none) →
      s'.isModalVisible = true → s'.editingTask ≠ none := by
  induction ops with
  | nil =>
    intro s s' h hs
    simp only [runOps, Option.some.injEq] at h
    subst h; exact hs
  | cons op ops ih =>
    intro s s' h hs
    simp only [runOps] at h
    cases ha : op.apply s with
    | none => simp [ha] at h
    | some s1 =>
      simp only [ha, Option.some_bind] at h
      exact ih s1 s' h (draft_open_apply s s1 op ha hs)

/-- While the modal is on screen a draft is open, in every state reached from
the first one: the three handlers of the modal then act on a task record, and
`updateTask` commits without raising. -/
theorem modal_handlers_defined (ops : List Op) (s : State)
    (h : runOps State.initial ops = some s) (hv : s.isModalVisible = true) (text : JSString) :
    (changeDraftText text s).isSome ∧ (changeDraftPriority text s).isSome ∧
      (updateTask s).isSome := by
  have hd := draft_open_runOps ops State.initial s h (by simp [State.initial]) hv
  cases he : s.editingTask with
  | none => exact absurd he hd
  | some d => simp [changeDraftText, changeDraftPriority, updateTask, he]

/-! ## JSON round trip -/

theorem hexValue_hexDigit (d : Nat) (h : d < 16) : hexValue (hexDigit d) = some d := by
  interval_cases d <;> rfl

theorem read_unicodeEscape (k : Bool) (acc : List Nat) (st : List Frame) (u : Nat)
    (h : u < 65536) :
    (unicodeEscape u).foldl step ⟨.str k acc, st⟩ = ⟨.str k (u :: acc), st⟩ := by
  have h3 := hexValue_hexDigit (u / 4096 % 16) (Nat.mod_lt _ (by norm_num))
  have h2 := hexValue_hexDigit (u / 256 % 16) (Nat.mod_lt _ (by norm_num))
  have h1 := hexValue_hexDigit (u / 16 % 16) (Nat.mod_lt _ (by norm_num))
  have h0 := hexValue_hexDigit (u % 16) (Nat.mod_lt _ (by norm_num))
  have hu : (((0 * 16 + u / 4096 % 16) * 16 + u / 256 % 16) * 16 + u / 16 % 16) * 16 + u % 16
      = u := by omega
  simp only [unicodeEscape, List.foldl_cons, List.foldl_nil, step, h3, h2, h1, h0]
  simp only [zero_mul, zero_add] at hu
  simp [hu]

theorem read_quoteUnit (k : Bool) (acc : List Nat) (st : List Frame) (u : Nat) :
    (quoteUnit u).foldl step ⟨.str k acc, st⟩ = ⟨.str k (u :: acc), st⟩ := by
  unfold quoteUnit
  split_ifs with h1 h2 h3 h4 h5 h6 h7 h8
  all_goals try (simp only [beq_iff_eq] at *; subst_vars; rfl)
  · apply read_unicodeEscape
    simp [isLeadSurrogate, isTrailSurrogate] at h8
    omega
  · simp only [beq_iff_eq] at *
    simp [isLeadSurrogate, isTrailSurrogate] at h8
    simp [step, h6, h7]
    omega

theorem read_quoteUnits (k : Bool) (st : List Frame) (s : List Nat) :
    ∀ acc, (quoteUnits s).foldl step ⟨.str k acc, st⟩ = ⟨.str k (s.reverse ++ acc), st⟩ := by
  induction s using quoteUnits.induct with
  | case1 => intro acc; rfl
  | case2 u => intro acc; simpa [quoteUnits] using read_quoteUnit k acc st u
  | case3 u v rest hp ih =>
    intro acc
    have hu : step ⟨.str k acc, st⟩ u = ⟨.str k (u :: acc), st⟩ := by
      simp [isLeadSurrogate] at hp
      have h1 : u ≠ 0x22 := by omega
      have h2 : u ≠ 0x5C := by omega
      have h3 : ¬ u < 0x20 := by omega
      simp [step, h1, h2, h3]
    have hv : step ⟨.str k (u :: acc), st⟩ v = ⟨.str k (v :: u :: acc), st⟩ := by
      simp [isTrailSurrogate] at hp
      have h1 : v ≠ 0x22 := by omega
      have h2 : v ≠ 0x5C := by omega
      have h3 : ¬ v < 0x20 := by omega
      simp [step, h1, h2, h3]
    simp only [quoteUnits, hp, if_true, List.foldl_cons, hu, hv, ih]
    simp
  | case4 u v rest hp ih =>
    intro acc
    simp only [quoteUnits, hp, if_false, Bool.false_eq_true, List.foldl_append, read_quoteUnit, ih]
    simp

theorem read_string_value (s : JSString) (ps : List (JSString × JSValue)) (key : JSString)
    (st : List Frame) :
    (quoteJSONString s).foldl step ⟨.value, .member ps key :: st⟩
      = ⟨.after, .obj (setProperty key (.string s) ps) :: st⟩ := by
  simp only [quoteJSONString, List.foldl_append, List.foldl_cons, List.foldl_nil]
  have h0 : step ⟨.value, .member ps key :: st⟩ 0x22 = ⟨.str false [], .member ps key :: st⟩ :=
    rfl
  rw [h0, read_quoteUnits]
  simp [step, completeString, complete]

theorem read_string_key (s : JSString) (ps : List (JSString × JSValue)) (st : List Frame)
    (m : Mode) (hm : m = .firstKey ∨ m = .key) :
    (quoteJSONString s).foldl step ⟨m, .obj ps :: st⟩ = ⟨.colon, .member ps s :: st⟩ := by
  simp only [quoteJSONString, List.foldl_append, List.foldl_cons, List.foldl_nil]
  have h0 : step ⟨m, .obj ps :: st⟩ 0x22 = ⟨.str true [], .obj ps :: st⟩ := by
    rcases hm with rfl | rfl <;> rfl
  rw [h0, read_quoteUnits]
  simp [step, completeString]

theorem read_bool (b : Bool) (ps : List (JSString × JSValue)) (key : JSString)
    (st : List Frame) :
    (if b then utf16 "true" else utf16 "false").foldl step ⟨.value, .member ps key :: st⟩
      = ⟨.after, .obj (setProperty key (.bool b) ps) :: st⟩ := by
  cases b <;> rfl

theorem setProperty_task (a b c d : JSValue) :
    setProperty (utf16 "completed") d
      (setProperty (utf16 "priority") c
        (setProperty (utf16 "value") b (setProperty (utf16 "id") a [])))
      = [(utf16 "id", a), (utf16 "value", b), (utf16 "priority", c), (utf16 "completed", d)] := by
  have h1 : utf16 "id" ≠ utf16 "value" := by decide
  have h2 : utf16 "id" ≠ utf16 "priority" := by decide
  have h3 : utf16 "id" ≠ utf16 "completed" := by decide
  have h4 : utf16 "value" ≠ utf16 "priority" := by decide
  have h5 : utf16 "value" ≠ utf16 "completed" := by decide
  have h6 : utf16 "priority" ≠ utf16 "completed" := by decide
  simp [setProperty, h1, h2, h3, h4, h5, h6]

theorem read_task (t : Task) (elements : List JSValue) (st : List Frame) (m : Mode)
    (hm : m = .value ∨ m = .firstElement) :
    (stringifyTask t).foldl step ⟨m, .arr elements :: st⟩
      = ⟨.after, .arr (taskToJS t :: elements) :: st⟩ := by
  have h0 : step ⟨m, .arr elements :: st⟩ 0x7B = ⟨.firstKey, .obj [] :: .arr elements :: st⟩ := by
    rcases hm with rfl | rfl <;> rfl
  have hcolon : ∀ ps key st', step ⟨.colon, .member ps key :: st'⟩ 0x3A
      = ⟨.value, .member ps key :: st'⟩ := fun _ _ _ => rfl
  have hcomma : ∀ ps st', step ⟨.after, .obj ps :: st'⟩ 0x2C = ⟨.key, .obj ps :: st'⟩ :=
    fun _ _ => rfl
  have hclose : ∀ ps, step ⟨.after, .obj ps :: .arr elements :: st⟩ 0x7D
      = ⟨.after, .arr (.object ps :: elements) :: st⟩ := fun _ => rfl
  simp only [stringifyTask, List.foldl_append, List.foldl_cons, List.foldl_nil, h0,
    read_string_key _ _ _ _ (Or.inl rfl), read_string_key _ _ _ _ (Or.inr rfl), hcolon,
    read_string_value, hcomma, read_bool, hclose, setProperty_task, taskToJS]

theorem read_elements (st : List Frame) (ts : List Task) :
    ∀ (t : Task) (elements : List JSValue) (m : Mode), m = .value ∨ m = .firstElement →
      (stringifyElements (t :: ts)).foldl step ⟨m, .arr elements :: st⟩
        = ⟨.after, .arr (((t :: ts).map taskToJS).reverse ++ elements) :: st⟩ := by
  induction ts with
  | nil =>
    intro t elements m hm
    simpa [stringifyElements] using read_task t elements st m hm
  | cons u ts ih =>
    intro t elements m hm
    have hcomma : step ⟨.after, .arr (taskToJS t :: elements) :: st⟩ 0x2C
        = ⟨.value, .arr (taskToJS t :: elements) :: st⟩ := rfl
    simp only [stringifyElements, List.foldl_append, List.foldl_cons, List.foldl_nil,
      read_task t elements st m hm, hcomma, ih u _ .value (Or.inl rfl)]
    simp

theorem jsonParse_stringifyTasks (tasks : List Task) :
    jsonParse (stringifyTasks tasks) = some (tasksToJS tasks) := by
  cases tasks with
  | nil => rfl
  | cons t ts =>
    have h0 : step ⟨.value, []⟩ 0x5B = ⟨.firstElement, [.arr []]⟩ := rfl
    have hclose : ∀ elements, step ⟨.after, [.arr elements]⟩ 0x5D
        = ⟨.done (.array elements.reverse), []⟩ := fun _ => rfl
    simp only [jsonParse, stringifyTasks, List.foldl_append, List.foldl_cons, List.foldl_nil, h0,
      read_elements [] ts t [] .firstElement (Or.inr rfl), hclose]
    simp [finish, tasksToJS]

theorem taskOfJS_taskToJS (t : Task) : taskOfJS (taskToJS t) = some t := by
  simp [taskOfJS, taskToJS]

theorem tasksOfJS_tasksToJS (tasks : List Task) : tasksOfJS (tasksToJS tasks) = some tasks := by
  simp only [tasksOfJS, tasksToJS]
  induction tasks with
  | nil => rfl
  | cons t ts ih => simp only [List.map_cons, tasksOfElements, taskOfJS_taskToJS, ih]

/-! ## Persistence -/

/-- C10. For every collection, reading with `JSON.parse` the string that
`saveTasks` writes gives the array of the same records in the same order, each
with its four fields of the same type and value; `loadTasks` on that stored
string installs it; and the typed collection read back from it is the
collection saved. -/
theorem saveTasks_then_parse_round_trip (tasks : List Task) (before : JSValue) :
    jsonParse (saveTasks tasks) = some (tasksToJS tasks) ∧
    loadTasks (.stored (saveTasks tasks)) before = .ok (tasksToJS tasks) ∧
    (jsonParse (saveTasks tasks)).bind tasksOfJS = some tasks := by
  have h := jsonParse_stringifyTasks tasks
  refine ⟨h, ?_, ?_⟩
  · simp only [loadTasks, loadTasksTry, saveTasks, h]
  · simp only [saveTasks, h, Option.some_bind, tasksOfJS_tasksToJS]

/-- C8, as the code does it. Whatever the read of the slot gives, `loadTasks`
ends without raising; when the slot is absent, when the read fails, and when
the stored string is not a JSON text (`JSON.parse` raises), the collection
after `loadTasks` is the collection before it, which at startup is the empty
one. -/
theorem loadTasks_falls_back_on_failure (read : ReadResult) (tasks : JSValue) :
    (∃ v, loadTasks read tasks = .ok v) ∧
    (read = .absent → loadTasks read tasks = .ok tasks) ∧
    (read = .rejected → loadTasks read tasks = .ok tasks) ∧
    (∀ text, read = .stored text → jsonParse text = none →
      loadTasks read tasks = .ok tasks) := by
  refine ⟨?_, ?_, ?_, ?_⟩
  · unfold loadTasks
    cases loadTasksTry read tasks with
    | ok v => exact ⟨v, rfl⟩
    | error e => exact ⟨tasks, rfl⟩
  · rintro rfl; rfl
  · rintro rfl; rfl
  · rintro text rfl h
    simp only [loadTasks, loadTasksTry, h]

theorem loadTasks_falls_back_on_failure_witness :
    loadTasks .absent (tasksToJS []) = .ok (tasksToJS []) ∧
    loadTasks .rejected (tasksToJS []) = .ok (tasksToJS []) ∧
    loadTasks (.stored (utf16 "[\x7b\"id\":")) (tasksToJS []) = .ok (tasksToJS []) :=
  ⟨(loadTasks_falls_back_on_failure .absent (tasksToJS [])).2.1 rfl,
   (loadTasks_falls_back_on_failure .rejected (tasksToJS [])).2.2.1 rfl,
   (loadTasks_falls_back_on_failure (.stored (utf16 "[\x7b\"id\":")) (tasksToJS [])).2.2.2
     (utf16 "[\x7b\"id\":") rfl rfl⟩

/-- C8 as stated fails: the stored strings `{}` and `[null]` are JSON texts
that are not collections of task records, and `loadTasks` installs what they
parse to, an object and an array holding `null`, not the empty collection. -/
theorem loadTasks_installs_non_collection :
    (jsonParse (utf16 "\x7b\x7d")).bind tasksOfJS = none ∧
    loadTasks (.stored (utf16 "\x7b\x7d")) (tasksToJS []) = .ok (.object []) ∧
    JSValue.object [] ≠ tasksToJS [] ∧
    (jsonParse (utf16 "[null]")).bind tasksOfJS = none ∧
    loadTasks (.stored (utf16 "[null]")) (tasksToJS []) = .ok (.array [.null]) ∧
    JSValue.array [.null] ≠ tasksToJS [] := by
  refine ⟨rfl, rfl, ?_, rfl, rfl, ?_⟩
  · intro h; cases h
  · intro h; cases h
end TodoApp
